import Mathlib

/-!
Verification of `deep_sort/application_util/visualization.py`.

The Python module is embedded shallowly over ℚ (exact rational arithmetic in
place of IEEE doubles) and over explicit event/command traces for the
stateful playback controllers and the drawing routines.
-/

set_option maxRecDepth 4000

/-- Computable floor of a rational (kernel-reducible, unlike `Int.floor`). -/
def ratFloor (q : ℚ) : ℤ := q.num / (q.den : ℤ)

theorem ratFloor_eq (q : ℚ) : ratFloor q = ⌊q⌋ := Rat.floor_def.symm

/-- Python `int(q)` on a number: truncation toward zero. -/
def pyInt (q : ℚ) : ℤ := if 0 ≤ q then ratFloor q else -ratFloor (-q)

/-- Python `x % y` on numbers, for `y ≠ 0`: `x - floor(x/y)*y` (result has
the sign of `y`). -/
def pyMod (x y : ℚ) : ℚ := x - ratFloor (x / y) * y

theorem pyInt_of_nonneg {q : ℚ} (h : 0 ≤ q) : pyInt q = ⌊q⌋ := by
  unfold pyInt
  rw [if_pos h, ratFloor_eq]

theorem pyMod_one (x : ℚ) : pyMod x 1 = Int.fract x := by
  unfold pyMod
  rw [div_one, ratFloor_eq, mul_one]
  rfl

/-- The final six-way dispatch of `colorsys.hsv_to_rgb` on `i % 6`
(the chain of `if i == 0: return v, t, p` … `if i == 5: return v, p, q`). -/
def hsvSelect (j : ℤ) (v t p q : ℚ) : ℚ × ℚ × ℚ :=
  if j = 0 then (v, t, p)
  else if j = 1 then (q, v, p)
  else if j = 2 then (p, v, t)
  else if j = 3 then (p, q, v)
  else if j = 4 then (t, p, v)
  else (v, p, q)

/-- Embedding of `colorsys.hsv_to_rgb` from the Python standard library,
which `create_unique_color_float` calls. -/
def hsv_to_rgb (h s v : ℚ) : ℚ × ℚ × ℚ :=
  if s = 0 then (v, v, v)
  else
    let i := pyInt (h * 6)
    let f := h * 6 - (i : ℚ)
    let p := v * (1 - s)
    let q := v * (1 - s * f)
    let t := v * (1 - s * (1 - f))
    hsvSelect (i % 6) v t p q

/-- The default hue step `0.41` of the color functions. -/
def hueStepDefault : ℚ := 41 / 100

/-- Embedding of `create_unique_color_float(tag, hue_step)`:
`h, v = (tag * hue_step) % 1, 1. - (int(tag * hue_step) % 4) / 5.` followed
by `colorsys.hsv_to_rgb(h, 1., v)`. -/
def create_unique_color_float (tag : ℕ) (hue_step : ℚ) : ℚ × ℚ × ℚ :=
  let h := pyMod ((tag : ℚ) * hue_step) 1
  let v := 1 - ((pyInt ((tag : ℚ) * hue_step) % 4 : ℤ) : ℚ) / 5
  hsv_to_rgb h 1 v

/-- Embedding of `create_unique_color_uchar(tag, hue_step)`:
`int(255 * r), int(255 * g), int(255 * b)` over the float color. -/
def create_unique_color_uchar (tag : ℕ) (hue_step : ℚ) : ℤ × ℤ × ℤ :=
  let c := create_unique_color_float tag hue_step
  (pyInt (255 * c.1), pyInt (255 * c.2.1), pyInt (255 * c.2.2))

/-- The standard HSV to RGB transform in its usual chroma formulation
(sector `⌊6h⌋`, chroma `c = v*s`, secondary `x`, match `m = v - c`), written
from the spec's words ("the standard HSV→RGB transform") to compare with the
embedded `colorsys` routine. -/
def standardHsvToRgb (h s v : ℚ) : ℚ × ℚ × ℚ :=
  let c := v * s
  let hp := h * 6
  let x := c * (1 - |hp - 2 * (⌊hp / 2⌋ : ℚ) - 1|)
  let m := v - c
  let base : ℚ × ℚ × ℚ :=
    if ⌊hp⌋ = 0 then (c, x, 0)
    else if ⌊hp⌋ = 1 then (x, c, 0)
    else if ⌊hp⌋ = 2 then (0, c, x)
    else if ⌊hp⌋ = 3 then (0, x, c)
    else if ⌊hp⌋ = 4 then (x, 0, c)
    else (c, 0, x)
  (base.1 + m, base.2.1 + m, base.2.2 + m)

/-- All three channels of a color triple lie in `[0, 1]`. -/
def inIcc01 (c : ℚ × ℚ × ℚ) : Prop :=
  0 ≤ c.1 ∧ c.1 ≤ 1 ∧ 0 ≤ c.2.1 ∧ c.2.1 ≤ 1 ∧ 0 ≤ c.2.2 ∧ c.2.2 ≤ 1

theorem hsvSelect_mem (j : ℤ) {v t p q : ℚ}
    (hv0 : 0 ≤ v) (hv1 : v ≤ 1) (ht0 : 0 ≤ t) (ht1 : t ≤ 1)
    (hp0 : 0 ≤ p) (hp1 : p ≤ 1) (hq0 : 0 ≤ q) (hq1 : q ≤ 1) :
    inIcc01 (hsvSelect j v t p q) := by
  unfold hsvSelect inIcc01
  split_ifs <;>
    exact ⟨by assumption, by assumption, by assumption, by assumption,
      by assumption, by assumption⟩

theorem hsv_to_rgb_mem {h v : ℚ} (h0 : 0 ≤ h) (hv0 : 0 ≤ v) (hv1 : v ≤ 1) :
    inIcc01 (hsv_to_rgb h 1 v) := by
  have h6 : (0 : ℚ) ≤ h * 6 := by positivity
  have hpi : pyInt (h * 6) = ⌊h * 6⌋ := pyInt_of_nonneg h6
  unfold hsv_to_rgb
  rw [if_neg (one_ne_zero (α := ℚ))]
  simp only [hpi]
  have hf0 : (0 : ℚ) ≤ h * 6 - (⌊h * 6⌋ : ℚ) :=
    sub_nonneg.2 (Int.floor_le _)
  have hf1 : h * 6 - (⌊h * 6⌋ : ℚ) ≤ 1 := by
    have := Int.lt_floor_add_one (h * 6); linarith
  apply hsvSelect_mem
  · exact hv0
  · exact hv1
  · nlinarith
  · nlinarith
  · nlinarith
  · nlinarith
  · nlinarith
  · nlinarith

theorem hsv_to_rgb_eq_standard {h : ℚ} (v : ℚ) (h0 : 0 ≤ h) (h1 : h < 1) :
    hsv_to_rgb h 1 v = standardHsvToRgb h 1 v := by
  have h6 : (0 : ℚ) ≤ h * 6 := by positivity
  have hpi : pyInt (h * 6) = ⌊h * 6⌋ := pyInt_of_nonneg h6
  have hi0 : 0 ≤ ⌊h * 6⌋ := Int.floor_nonneg.2 h6
  have hi5 : ⌊h * 6⌋ < 6 := by
    refine Int.floor_lt.2 ?_
    push_cast
    linarith
  have hcase : ⌊h * 6⌋ = 0 ∨ ⌊h * 6⌋ = 1 ∨ ⌊h * 6⌋ = 2 ∨ ⌊h * 6⌋ = 3 ∨
      ⌊h * 6⌋ = 4 ∨ ⌊h * 6⌋ = 5 := by omega
  rcases hcase with hfl | hfl | hfl | hfl | hfl | hfl
  · have hb := Int.floor_eq_iff.1 hfl
    push_cast at hb
    have hfl2 : ⌊h * 6 / 2⌋ = 0 := by
      rw [Int.floor_eq_iff]
      push_cast
      constructor <;> linarith
    unfold hsv_to_rgb standardHsvToRgb hsvSelect
    rw [if_neg (one_ne_zero (α := ℚ))]
    simp only [hpi, hfl, hfl2]
    push_cast
    rw [abs_of_nonpos (by linarith)]
    simp only [Prod.mk.injEq]
    refine ⟨by ring, by ring, by ring⟩
  · have hb := Int.floor_eq_iff.1 hfl
    push_cast at hb
    have hfl2 : ⌊h * 6 / 2⌋ = 0 := by
      rw [Int.floor_eq_iff]
      push_cast
      constructor <;> linarith
    unfold hsv_to_rgb standardHsvToRgb hsvSelect
    rw [if_neg (one_ne_zero (α := ℚ))]
    simp only [hpi, hfl, hfl2]
    push_cast
    rw [abs_of_nonneg (by linarith)]
    simp only [Prod.mk.injEq]
    refine ⟨by ring, by ring, by ring⟩
  · have hb := Int.floor_eq_iff.1 hfl
    push_cast at hb
    have hfl2 : ⌊h * 6 / 2⌋ = 1 := by
      rw [Int.floor_eq_iff]
      push_cast
      constructor <;> linarith
    unfold hsv_to_rgb standardHsvToRgb hsvSelect
    rw [if_neg (one_ne_zero (α := ℚ))]
    simp only [hpi, hfl, hfl2]
    push_cast
    rw [abs_of_nonpos (by linarith)]
    simp only [Prod.mk.injEq]
    refine ⟨by ring, by ring, by ring⟩
  · have hb := Int.floor_eq_iff.1 hfl
    push_cast at hb
    have hfl2 : ⌊h * 6 / 2⌋ = 1 := by
      rw [Int.floor_eq_iff]
      push_cast
      constructor <;> linarith
    unfold hsv_to_rgb standardHsvToRgb hsvSelect
    rw [if_neg (one_ne_zero (α := ℚ))]
    simp only [hpi, hfl, hfl2]
    push_cast
    rw [abs_of_nonneg (by linarith)]
    simp only [Prod.mk.injEq]
    refine ⟨by ring, by ring, by ring⟩
  · have hb := Int.floor_eq_iff.1 hfl
    push_cast at hb
    have hfl2 : ⌊h * 6 / 2⌋ = 2 := by
      rw [Int.floor_eq_iff]
      push_cast
      constructor <;> linarith
    unfold hsv_to_rgb standardHsvToRgb hsvSelect
    rw [if_neg (one_ne_zero (α := ℚ))]
    simp only [hpi, hfl, hfl2]
    push_cast
    rw [abs_of_nonpos (by linarith)]
    simp only [Prod.mk.injEq]
    refine ⟨by ring, by ring, by ring⟩
  · have hb := Int.floor_eq_iff.1 hfl
    push_cast at hb
    have hfl2 : ⌊h * 6 / 2⌋ = 2 := by
      rw [Int.floor_eq_iff]
      push_cast
      constructor <;> linarith
    unfold hsv_to_rgb standardHsvToRgb hsvSelect
    rw [if_neg (one_ne_zero (α := ℚ))]
    simp only [hpi, hfl, hfl2]
    push_cast
    rw [abs_of_nonneg (by linarith)]
    simp only [Prod.mk.injEq]
    refine ⟨by ring, by ring, by ring⟩

/-- C1: for every non-negative integer tag, `create_unique_color_float` with
the default hue step 0.41 returns the standard HSV to RGB conversion of the
triple (hue = fractional part of `tag*0.41`, saturation = 1, value =
`1 - ((⌊tag*0.41⌋) % 4)/5`), and each output channel is in `[0, 1]`. -/
theorem create_unique_color_float_standard (tag : ℕ) :
    create_unique_color_float tag hueStepDefault
      = standardHsvToRgb (Int.fract ((tag : ℚ) * hueStepDefault)) 1
          (1 - ((⌊(tag : ℚ) * hueStepDefault⌋ % 4 : ℤ) : ℚ) / 5)
    ∧ inIcc01 (create_unique_color_float tag hueStepDefault) := by
  have hpos : (0 : ℚ) ≤ (tag : ℚ) * hueStepDefault := by
    have h1 : (0 : ℚ) ≤ (tag : ℚ) := Nat.cast_nonneg tag
    have h2 : (0 : ℚ) ≤ hueStepDefault := by norm_num [hueStepDefault]
    exact mul_nonneg h1 h2
  have hh : pyMod ((tag : ℚ) * hueStepDefault) 1
      = Int.fract ((tag : ℚ) * hueStepDefault) := pyMod_one _
  have hpi : pyInt ((tag : ℚ) * hueStepDefault)
      = ⌊(tag : ℚ) * hueStepDefault⌋ := pyInt_of_nonneg hpos
  have hb0 : (0 : ℤ) ≤ ⌊(tag : ℚ) * hueStepDefault⌋ % 4 :=
    Int.emod_nonneg _ (by norm_num)
  have hb3 : ⌊(tag : ℚ) * hueStepDefault⌋ % 4 < 4 :=
    Int.emod_lt_of_pos _ (by norm_num)
  have hv0 : (0 : ℚ) ≤ 1 - ((⌊(tag : ℚ) * hueStepDefault⌋ % 4 : ℤ) : ℚ) / 5 := by
    have : ((⌊(tag : ℚ) * hueStepDefault⌋ % 4 : ℤ) : ℚ) ≤ 4 := by
      exact_mod_cast hb3.le
    linarith
  have hv1 : 1 - ((⌊(tag : ℚ) * hueStepDefault⌋ % 4 : ℤ) : ℚ) / 5 ≤ 1 := by
    have : (0 : ℚ) ≤ ((⌊(tag : ℚ) * hueStepDefault⌋ % 4 : ℤ) : ℚ) := by
      exact_mod_cast hb0
    linarith
  have hfr0 : (0 : ℚ) ≤ Int.fract ((tag : ℚ) * hueStepDefault) :=
    Int.fract_nonneg _
  have hfr1 : Int.fract ((tag : ℚ) * hueStepDefault) < 1 :=
    Int.fract_lt_one _
  unfold create_unique_color_float
  rw [hh, hpi]
  exact ⟨hsv_to_rgb_eq_standard _ hfr0 hfr1, hsv_to_rgb_mem hfr0 hv0 hv1⟩

/-- Witness for C1 at the concrete tag 7. -/
theorem create_unique_color_float_standard_witness :
    create_unique_color_float 7 hueStepDefault
      = standardHsvToRgb (Int.fract ((7 : ℚ) * hueStepDefault)) 1
          (1 - ((⌊(7 : ℚ) * hueStepDefault⌋ % 4 : ℤ) : ℚ) / 5)
    ∧ inIcc01 (create_unique_color_float 7 hueStepDefault) := by
  have h := create_unique_color_float_standard 7
  norm_num at h ⊢
  exact h

/-- C6: `create_unique_color_uchar` is the float color with each channel
multiplied by 255 and truncated (not rounded) toward zero; in particular a
channel value of 0.999999 maps to 254. -/
theorem create_unique_color_uchar_truncates (tag : ℕ) :
    create_unique_color_uchar tag hueStepDefault
      = (pyInt (255 * (create_unique_color_float tag hueStepDefault).1),
         pyInt (255 * (create_unique_color_float tag hueStepDefault).2.1),
         pyInt (255 * (create_unique_color_float tag hueStepDefault).2.2))
    ∧ pyInt (255 * (999999 / 1000000 : ℚ)) = 254 := by
  refine ⟨rfl, ?_⟩
  norm_num [pyInt, ratFloor]

/-- Witness for C6 at the concrete tag 5. -/
theorem create_unique_color_uchar_truncates_witness :
    create_unique_color_uchar 5 hueStepDefault
      = (pyInt (255 * (create_unique_color_float 5 hueStepDefault).1),
         pyInt (255 * (create_unique_color_float 5 hueStepDefault).2.1),
         pyInt (255 * (create_unique_color_float 5 hueStepDefault).2.2))
    ∧ pyInt (255 * (999999 / 1000000 : ℚ)) = 254 :=
  create_unique_color_uchar_truncates 5

/-- The hue channel from which `create_unique_color_float` builds the color
of a tag: `(tag * hue_step) % 1` with the default hue step. -/
def trackHue (tag : ℕ) : ℚ := pyMod ((tag : ℚ) * hueStepDefault) 1

/-- Circular distance of two positions on the unit hue wheel. -/
def circDist (a b : ℚ) : ℚ := min |a - b| (1 - |a - b|)

theorem trackHue_zero : trackHue 0 = 0 := by
  norm_num [trackHue, pyMod, ratFloor, hueStepDefault]

theorem trackHue_one : trackHue 1 = 41 / 100 := by
  norm_num [trackHue, pyMod, ratFloor, hueStepDefault]

theorem trackHue_two : trackHue 2 = 82 / 100 := by
  norm_num [trackHue, pyMod, ratFloor, hueStepDefault]

/-- C7 counterexample: the hues assigned to identities 0 and 2 under the
default hue step are 0 and 0.82, whose circular distance on the hue wheel is
0.18, strictly less than the claimed bound 0.3. -/
theorem hue_circ_dist_zero_two_lt :
    circDist (trackHue 0) (trackHue 2) < 3 / 10 := by
  rw [circDist, trackHue_zero, trackHue_two]
  rw [show |(0 : ℚ) - 82 / 100| = 82 / 100 by
    rw [abs_of_nonpos (by norm_num)]; norm_num]
  rw [min_def]
  norm_num

/-- C7 amended: the pairwise circular hue distances of identities 0, 1, 2
under the default hue step are each at least 0.18. -/
theorem hue_circ_dist_pairwise_ge :
    18 / 100 ≤ circDist (trackHue 0) (trackHue 1)
    ∧ 18 / 100 ≤ circDist (trackHue 0) (trackHue 2)
    ∧ 18 / 100 ≤ circDist (trackHue 1) (trackHue 2) := by
  rw [circDist, circDist, circDist, trackHue_zero, trackHue_one, trackHue_two]
  rw [show |(0 : ℚ) - 41 / 100| = 41 / 100 by
    rw [abs_of_nonpos (by norm_num)]; norm_num]
  rw [show |(0 : ℚ) - 82 / 100| = 82 / 100 by
    rw [abs_of_nonpos (by norm_num)]; norm_num]
  rw [show |(41 / 100 : ℚ) - 82 / 100| = 41 / 100 by
    rw [abs_of_nonpos (by norm_num)]; norm_num]
  simp only [min_def]
  norm_num

/-- Embedding of `NoVisualization.run`. The capture source is a finite list
of read results (`some f` for a successful read delivering frame `f`, `none`
for a failed one; reading past the end of the list fails, as reads on an
exhausted `cv2.VideoCapture` do). The result is the return value of `run`
paired with the frames passed to `frame_callback`, in call order. -/
def NoVisualization.run : List (Option ℕ) → Bool × List ℕ
  | [] => (false, [])
  | none :: _ => (false, [])
  | some f :: rest =>
      let r := NoVisualization.run rest
      (r.1, f :: r.2)

/-- C2: headless `run` returns `false` exactly when a read fails (which, on a
finite source, always eventually happens), having invoked the callback once
per successfully read frame in source order; over a 5-frame source whose read
fails at frame 3, the callback sees frames 0, 1, 2 only and `run` returns
`false`. -/
theorem noVis_run_spec :
    (∀ reads : List (Option ℕ),
      NoVisualization.run reads
        = (false, (reads.takeWhile Option.isSome).filterMap id))
    ∧ NoVisualization.run [some 0, some 1, some 2, none, some 4]
        = (false, [0, 1, 2]) := by
  constructor
  · intro reads
    induction reads with
    | nil => rfl
    | cons a rest ih =>
      cases a with
      | none => rfl
      | some f => simp [NoVisualization.run, ih, List.takeWhile_cons]
  · rfl

/-- Embedding of the offline branch of `Visualization._update_fun`. The
offline source has `N` frames; frame `i` is identified with its index `i`;
`cap.get(1)` returns the current position `pos`, a read at `pos < N` succeeds
and advances the position, a read at `pos = N` fails (`success = False`,
`frame = None`) and leaves the position unchanged. `F` is `self.fps`. The
result is (return value, final position, frames passed to `frame_callback`,
a failed read passing `none`). -/
def Visualization.updateOffline (F N pos : ℕ) : Bool × ℕ × List (Option ℕ) :=
  if h : pos < N then
    if pos % F = 0 then (true, pos + 1, [some pos])
    else Visualization.updateOffline F N (pos + 1)
  else
    if pos % F = 0 then (true, pos, [none])
    else (false, pos, [])
termination_by N - pos

/-- Repeated invocation of the offline update function by the viewer's event
loop: up to `fuel` ticks, stopping when an update returns `false`; collects
the frames forwarded to the callback across ticks. -/
def Visualization.runOffline (F N : ℕ) : ℕ → ℕ → List (Option ℕ)
  | 0, _ => []
  | fuel + 1, pos =>
      let r := Visualization.updateOffline F N pos
      if r.1 then r.2.2 ++ Visualization.runOffline F N fuel r.2.1
      else r.2.2

theorem updateOffline_hit {F N pos : ℕ} (h : pos < N) (hm : pos % F = 0) :
    Visualization.updateOffline F N pos = (true, pos + 1, [some pos]) := by
  rw [Visualization.updateOffline]
  simp [h, hm]

theorem updateOffline_skip {F N pos : ℕ} (h : pos < N) (hm : ¬ pos % F = 0) :
    Visualization.updateOffline F N pos
      = Visualization.updateOffline F N (pos + 1) := by
  rw [Visualization.updateOffline]
  simp [h, hm]

theorem updateOffline_end {F N pos : ℕ} (h : ¬ pos < N) :
    Visualization.updateOffline F N pos
      = if pos % F = 0 then (true, pos, [none]) else (false, pos, []) := by
  rw [Visualization.updateOffline]
  simp [h]

theorem runOffline_skip {F N pos : ℕ} (h : pos < N) (hm : ¬ pos % F = 0)
    (fuel : ℕ) :
    Visualization.runOffline F N (fuel + 1) pos
      = Visualization.runOffline F N (fuel + 1) (pos + 1) := by
  conv_lhs => rw [Visualization.runOffline]
  conv_rhs => rw [Visualization.runOffline]
  rw [updateOffline_skip h hm]

theorem runOffline_hit {F N pos : ℕ} (h : pos < N) (hm : pos % F = 0)
    (fuel : ℕ) :
    Visualization.runOffline F N (fuel + 1) pos
      = some pos :: Visualization.runOffline F N fuel (pos + 1) := by
  rw [Visualization.runOffline, updateOffline_hit h hm]
  rfl

theorem runOffline_end {F N pos : ℕ} (h : ¬ pos < N) (fuel : ℕ) :
    Visualization.runOffline F N (fuel + 1) pos
      = if pos % F = 0 then none :: Visualization.runOffline F N fuel pos
        else [] := by
  rw [Visualization.runOffline, updateOffline_end h]
  by_cases hm : pos % F = 0 <;> simp [hm]

theorem runOffline_end_filterMap {F N pos : ℕ} (h : ¬ pos < N) :
    ∀ fuel, (Visualization.runOffline F N fuel pos).filterMap id = [] := by
  intro fuel
  induction fuel with
  | zero => rfl
  | succ fuel ih =>
    rw [runOffline_end h]
    by_cases hm : pos % F = 0 <;> simp [hm, ih]

theorem runOffline_filterMap (F N : ℕ) :
    ∀ d pos fuel, N - pos ≤ d → N - pos < fuel →
      (Visualization.runOffline F N fuel pos).filterMap id
        = (List.range' pos (N - pos)).filter (fun i => i % F == 0) := by
  intro d
  induction d with
  | zero =>
    intro pos fuel hd _
    have hnl : ¬ pos < N := by omega
    rw [runOffline_end_filterMap hnl]
    rw [show N - pos = 0 from hd.antisymm (Nat.zero_le _)]
    rfl
  | succ d ih =>
    intro pos fuel hd hfuel
    by_cases hlt : pos < N
    · obtain ⟨fuel', rfl⟩ : ∃ fuel', fuel = fuel' + 1 := by
        cases fuel with
        | zero => omega
        | succ k => exact ⟨k, rfl⟩
      have hrange : N - pos = (N - (pos + 1)) + 1 := by omega
      by_cases hm : pos % F = 0
      · rw [runOffline_hit hlt hm]
        rw [List.filterMap_cons]
        simp only [id]
        rw [ih (pos + 1) fuel' (by omega) (by omega)]
        rw [hrange, List.range'_succ, List.filter_cons]
        simp [hm]
      · rw [runOffline_skip hlt hm]
        rw [ih (pos + 1) (fuel' + 1) (by omega) (by omega)]
        rw [hrange, List.range'_succ, List.filter_cons]
        simp [hm]
    · rw [runOffline_end_filterMap hlt]
      rw [show N - pos = 0 by omega]
      rfl

theorem updateOffline_single (F N : ℕ) :
    ∀ d pos, N - pos ≤ d →
      (Visualization.updateOffline F N pos).2.2.length ≤ 1
      ∧ ((Visualization.updateOffline F N pos).2.2 ≠ [] →
          (Visualization.updateOffline F N pos).1 = true) := by
  intro d
  induction d with
  | zero =>
    intro pos hd
    have hnl : ¬ pos < N := by omega
    rw [updateOffline_end hnl]
    by_cases hm : pos % F = 0 <;> simp [hm]
  | succ d ih =>
    intro pos hd
    by_cases hlt : pos < N
    · by_cases hm : pos % F = 0
      · rw [updateOffline_hit hlt hm]
        simp
      · rw [updateOffline_skip hlt hm]
        exact ih (pos + 1) (by omega)
    · rw [updateOffline_end hlt]
      by_cases hm : pos % F = 0 <;> simp [hm]

/-- C3: in offline mode with a source of frame rate `F > 0` and `N` frames,
the frames forwarded to the callback over the whole viewer run are exactly
those whose index is a multiple of `F`, in order; moreover one update
invocation forwards at most one frame and, when it has forwarded one,
returns `true` immediately (control goes back to the viewer tick). -/
theorem offline_update_multiples (F N pos : ℕ) (hF : 0 < F) :
    ((Visualization.runOffline F N (N + 1) 0).filterMap id
        = (List.range N).filter (fun i => i % F == 0))
    ∧ (Visualization.updateOffline F N pos).2.2.length ≤ 1
    ∧ ((Visualization.updateOffline F N pos).2.2 ≠ [] →
        (Visualization.updateOffline F N pos).1 = true) := by
  refine ⟨?_, updateOffline_single F N (N - pos) pos le_rfl⟩
  have h := runOffline_filterMap F N N 0 (N + 1) (by omega) (by omega)
  rw [h, List.range_eq_range']
  simp

/-- Witness for C3 at `F = 2`, `N = 5`, `pos = 3`. -/
theorem offline_update_multiples_witness :
    0 < 2
    ∧ (((Visualization.runOffline 2 5 6 0).filterMap id
          = (List.range 5).filter (fun i => i % 2 == 0))
      ∧ (Visualization.updateOffline 2 5 3).2.2.length ≤ 1
      ∧ ((Visualization.updateOffline 2 5 3).2.2 ≠ [] →
          (Visualization.updateOffline 2 5 3).1 = true)) :=
  ⟨by decide, offline_update_multiples 2 5 3 (by decide)⟩

/-- C4 (code bug): in offline mode the check `frameId % fps == 0` is made
before `success` is consulted, so a failed read whose frame index is a
multiple of the frame rate is still forwarded to the callback (as `None`)
and the update reports continue. Evaluated here at the failing input: an
empty source (`N = 0`, the read at index 0 fails) with `fps = 1`. -/
theorem offline_failed_read_forwarded :
    Visualization.updateOffline 1 0 0 = (true, 0, [none]) := by
  rw [updateOffline_end (by omega)]
  simp

/-- An axis-aligned box as passed positionally to the rasterizer:
`(x, y, width, height)`. -/
abbrev Box := ℚ × ℚ × ℚ × ℚ

/-- Modelled from the spec: a tracker track (external entity, consumed
read-only): confirmation status, "frames since last update" counter,
identity, and box accessor `to_tlwh`. -/
structure Track where
  is_confirmed : Bool
  time_since_update : ℕ
  track_id : ℕ
  to_tlwh : Box

/-- Modelled from the spec: a detection (external entity, consumed
read-only): exposes a box `tlwh`, no identity. -/
structure Detection where
  tlwh : Box

/-- One recorded stroke of the viewer's rectangle primitive: the box passed
to it, the optional text label, and the viewer's color and thickness at the
time of the call. -/
structure RectCmd where
  x : ℚ
  y : ℚ
  w : ℚ
  h : ℚ
  label : Option String
  color : ℤ × ℤ × ℤ
  thickness : ℕ
deriving DecidableEq

/-- The viewer collaborator's state visible to the drawing code: settable
stroke color and thickness, plus the strokes recorded so far. -/
structure ViewerState where
  color : ℤ × ℤ × ℤ
  thickness : ℕ
  cmds : List RectCmd

/-- Modelled from the spec: the viewer's "draw rectangle with optional text
label" primitive (`image_viewer.py` is outside `src/`): it strokes the given
box with the viewer's current color and thickness. -/
def ImageViewer.rectangle (vs : ViewerState) (x y w h : ℚ)
    (label : Option String) : ViewerState :=
  { vs with cmds := vs.cmds ++ [⟨x, y, w, h, label, vs.color, vs.thickness⟩] }

/-- Loop body of `Visualization.draw_trackers`: skip a track that is not
confirmed or has `time_since_update > 0`; otherwise set the viewer color to
the track id's unique color and stroke `track.to_tlwh().astype(np.int)`
(truncation toward zero) with label `str(track.track_id)`. -/
def drawTrackersStep (s : ViewerState) (t : Track) : ViewerState :=
  if t.is_confirmed = false ∨ 0 < t.time_since_update then s
  else
    ImageViewer.rectangle
      { s with color := create_unique_color_uchar t.track_id hueStepDefault }
      (pyInt t.to_tlwh.1 : ℚ) (pyInt t.to_tlwh.2.1 : ℚ)
      (pyInt t.to_tlwh.2.2.1 : ℚ) (pyInt t.to_tlwh.2.2.2 : ℚ)
      (some (toString t.track_id))

/-- Embedding of `Visualization.draw_trackers`: set thickness 2, then run the
loop body over the track list. -/
def Visualization.draw_trackers (vs : ViewerState) (tracks : List Track) :
    ViewerState :=
  tracks.foldl drawTrackersStep { vs with thickness := 2 }

/-- The stroke that `draw_trackers` records for a rendered track. -/
def trackRect (t : Track) : RectCmd :=
  ⟨(pyInt t.to_tlwh.1 : ℚ), (pyInt t.to_tlwh.2.1 : ℚ),
   (pyInt t.to_tlwh.2.2.1 : ℚ), (pyInt t.to_tlwh.2.2.2 : ℚ),
   some (toString t.track_id),
   create_unique_color_uchar t.track_id hueStepDefault, 2⟩

theorem drawTrackersStep_thickness (s : ViewerState) (t : Track) :
    (drawTrackersStep s t).thickness = s.thickness := by
  unfold drawTrackersStep ImageViewer.rectangle
  split_ifs <;> rfl

theorem foldl_drawTrackersStep (tracks : List Track) :
    ∀ s : ViewerState, s.thickness = 2 →
      (tracks.foldl drawTrackersStep s).cmds
        = s.cmds ++ (tracks.filter
            (fun t => t.is_confirmed && t.time_since_update == 0)).map trackRect := by
  induction tracks with
  | nil => intro s _; simp
  | cons t rest ih =>
    intro s hs
    rw [List.foldl_cons, List.filter_cons]
    by_cases hc : t.is_confirmed = false ∨ 0 < t.time_since_update
    · have hstep : drawTrackersStep s t = s := by
        unfold drawTrackersStep
        rw [if_pos hc]
      have hb : (t.is_confirmed && t.time_since_update == 0) = false := by
        rcases hc with hc | hc
        · simp [hc]
        · have : (t.time_since_update == 0) = false := by
            simp [Nat.pos_iff_ne_zero.1 hc]
          simp [this]
      rw [hstep, hb]
      simp only [Bool.false_eq_true, if_false]
      exact ih s hs
    · have hb : (t.is_confirmed && t.time_since_update == 0) = true := by
        push_neg at hc
        have hconf : t.is_confirmed = true := by simpa using hc.1
        simp [hconf, Nat.le_zero.1 hc.2]
      have hstep : drawTrackersStep s t
          = ImageViewer.rectangle
              { s with color := create_unique_color_uchar t.track_id hueStepDefault }
              (pyInt t.to_tlwh.1 : ℚ) (pyInt t.to_tlwh.2.1 : ℚ)
              (pyInt t.to_tlwh.2.2.1 : ℚ) (pyInt t.to_tlwh.2.2.2 : ℚ)
              (some (toString t.track_id)) := by
        unfold drawTrackersStep
        rw [if_neg hc]
      rw [hstep, hb]
      simp only [if_true]
      rw [ih _ (by simp [ImageViewer.rectangle, hs])]
      simp [ImageViewer.rectangle, hs, trackRect]

/-- C5: `draw_trackers` strokes exactly the confirmed tracks with
`time_since_update = 0`, in order, each with thickness 2, the
`create_unique_color_uchar` color of its id, and the id's decimal string as
label; non-confirmed or stale tracks are never rendered. -/
theorem draw_trackers_spec (vs : ViewerState) (tracks : List Track) :
    (Visualization.draw_trackers vs tracks).cmds
      = vs.cmds ++ (tracks.filter
          (fun t => t.is_confirmed && t.time_since_update == 0)).map trackRect := by
  unfold Visualization.draw_trackers
  exact foldl_drawTrackersStep tracks _ rfl

/-- Witness for C5: one confirmed fresh track, one stale and one tentative
track; only the first is stroked. -/
theorem draw_trackers_spec_witness :
    (Visualization.draw_trackers ⟨(0, 0, 0), 7, []⟩
        [⟨true, 0, 4, (1, 2, 3, 4)⟩, ⟨true, 2, 5, (5, 6, 7, 8)⟩,
         ⟨false, 0, 6, (9, 10, 11, 12)⟩]).cmds
      = [] ++ ([⟨true, 0, 4, (1, 2, 3, 4)⟩, ⟨true, 2, 5, (5, 6, 7, 8)⟩,
          (⟨false, 0, 6, (9, 10, 11, 12)⟩ : Track)].filter
            (fun t => t.is_confirmed && t.time_since_update == 0)).map trackRect :=
  draw_trackers_spec ⟨(0, 0, 0), 7, []⟩ _

/-- Loop body of `Visualization.draw_detections`: stroke
`detection.tlwh` (coordinates passed through untruncated), no label. -/
def drawDetectionsStep (s : ViewerState) (d : Detection) : ViewerState :=
  ImageViewer.rectangle s d.tlwh.1 d.tlwh.2.1 d.tlwh.2.2.1 d.tlwh.2.2.2 none

/-- Embedding of `Visualization.draw_detections`: set thickness 2 and color
`(0, 0, 255)` (pure red in the viewer's BGR channel order), then stroke each
detection's box. -/
def Visualization.draw_detections (vs : ViewerState) (dets : List Detection) :
    ViewerState :=
  dets.foldl drawDetectionsStep { vs with thickness := 2, color := (0, 0, 255) }

theorem foldl_drawDetectionsStep (dets : List Detection) :
    ∀ s : ViewerState,
      (dets.foldl drawDetectionsStep s).cmds
        = s.cmds ++ dets.map (fun d =>
            ⟨d.tlwh.1, d.tlwh.2.1, d.tlwh.2.2.1, d.tlwh.2.2.2, none,
             s.color, s.thickness⟩) := by
  induction dets with
  | nil => intro s; simp
  | cons d rest ih =>
    intro s
    rw [List.foldl_cons, List.map_cons]
    rw [show drawDetectionsStep s d
        = { s with cmds := s.cmds ++
            [⟨d.tlwh.1, d.tlwh.2.1, d.tlwh.2.2.1, d.tlwh.2.2.2, none,
              s.color, s.thickness⟩] } from rfl]
    rw [ih _]
    simp

/-- C9: `draw_detections` strokes every supplied detection's box, in order,
each in the one fixed color `(0, 0, 255)` — pure red in the viewer's BGR
convention — with thickness 2 and no label, independent of list position and
of any identity. -/
theorem draw_detections_spec (vs : ViewerState) (dets : List Detection) :
    (Visualization.draw_detections vs dets).cmds
      = vs.cmds ++ dets.map (fun d =>
          ⟨d.tlwh.1, d.tlwh.2.1, d.tlwh.2.2.1, d.tlwh.2.2.2, none,
           (0, 0, 255), 2⟩) := by
  unfold Visualization.draw_detections
  rw [foldl_drawDetectionsStep]

/-- Witness for C9 with two concrete detections. -/
theorem draw_detections_spec_witness :
    (Visualization.draw_detections ⟨(9, 9, 9), 5, []⟩
        [⟨(1, 2, 3, 4)⟩, ⟨(5, 6, 7, 8)⟩]).cmds
      = [] ++ [(⟨(1, 2, 3, 4)⟩ : Detection), ⟨(5, 6, 7, 8)⟩].map (fun d =>
          ⟨d.tlwh.1, d.tlwh.2.1, d.tlwh.2.2.1, d.tlwh.2.2.2, none,
           (0, 0, 255), 2⟩) :=
  draw_detections_spec ⟨(9, 9, 9), 5, []⟩ _

/-- Loop body of `Visualization.draw_groundtruth` over one `(track_id, box)`
pair from `zip(track_ids, boxes)`: set the viewer color to the id's unique
color and stroke `box.astype(np.int)` (truncation toward zero) with label
`str(track_id)`. -/
def drawGroundtruthStep (s : ViewerState) (pr : ℕ × Box) : ViewerState :=
  ImageViewer.rectangle
    { s with color := create_unique_color_uchar pr.1 hueStepDefault }
    (pyInt pr.2.1 : ℚ) (pyInt pr.2.2.1 : ℚ)
    (pyInt pr.2.2.2.1 : ℚ) (pyInt pr.2.2.2.2 : ℚ)
    (some (toString pr.1))

/-- Embedding of `Visualization.draw_groundtruth`: set thickness 2, then run
the loop body over `zip(track_ids, boxes)` (Python `zip` stops at the
shorter list). -/
def Visualization.draw_groundtruth (vs : ViewerState) (track_ids : List ℕ)
    (boxes : List Box) : ViewerState :=
  (track_ids.zip boxes).foldl drawGroundtruthStep { vs with thickness := 2 }

/-- The stroke that `draw_groundtruth` records for one `(id, box)` pair. -/
def gtRect (pr : ℕ × Box) : RectCmd :=
  ⟨(pyInt pr.2.1 : ℚ), (pyInt pr.2.2.1 : ℚ),
   (pyInt pr.2.2.2.1 : ℚ), (pyInt pr.2.2.2.2 : ℚ),
   some (toString pr.1), create_unique_color_uchar pr.1 hueStepDefault, 2⟩

theorem foldl_drawGroundtruthStep (prs : List (ℕ × Box)) :
    ∀ s : ViewerState, s.thickness = 2 →
      (prs.foldl drawGroundtruthStep s).cmds = s.cmds ++ prs.map gtRect := by
  induction prs with
  | nil => intro s _; simp
  | cons pr rest ih =>
    intro s hs
    rw [List.foldl_cons, List.map_cons]
    rw [show drawGroundtruthStep s pr
        = { s with
              color := create_unique_color_uchar pr.1 hueStepDefault
              cmds := s.cmds ++
                [⟨(pyInt pr.2.1 : ℚ), (pyInt pr.2.2.1 : ℚ),
                  (pyInt pr.2.2.2.1 : ℚ), (pyInt pr.2.2.2.2 : ℚ),
                  some (toString pr.1),
                  create_unique_color_uchar pr.1 hueStepDefault,
                  s.thickness⟩] } from rfl]
    rw [ih _ (by exact hs)]
    simp [hs, gtRect]

/-- C10: `draw_groundtruth` strokes exactly `min(|track_ids|, |boxes|)`
rectangles, pairing ids and boxes positionally (excess elements of the
longer list are ignored); each stroke uses the box coordinates truncated to
integers, the 8-bit unique color of the id, the id's decimal string as
label, and thickness 2. -/
theorem draw_groundtruth_spec (vs : ViewerState) (track_ids : List ℕ)
    (boxes : List Box) :
    (Visualization.draw_groundtruth vs track_ids boxes).cmds
      = vs.cmds ++ (track_ids.zip boxes).map gtRect
    ∧ ((Visualization.draw_groundtruth vs track_ids boxes).cmds).length
      = vs.cmds.length + min track_ids.length boxes.length := by
  have h : (Visualization.draw_groundtruth vs track_ids boxes).cmds
      = vs.cmds ++ (track_ids.zip boxes).map gtRect := by
    unfold Visualization.draw_groundtruth
    exact foldl_drawGroundtruthStep _ _ rfl
  refine ⟨h, ?_⟩
  rw [h]
  simp [List.length_zip]

/-- Witness for C10: three ids against two boxes stroke exactly two
rectangles. -/
theorem draw_groundtruth_spec_witness :
    (Visualization.draw_groundtruth ⟨(0, 0, 0), 3, []⟩ [4, 5, 6]
        [(1, 2, 3, 4), (5, 6, 7, 8)]).cmds
      = [] ++ ([4, 5, 6].zip [((1 : ℚ), (2 : ℚ), (3 : ℚ), (4 : ℚ)),
          (5, 6, 7, 8)]).map gtRect
    ∧ ((Visualization.draw_groundtruth ⟨(0, 0, 0), 3, []⟩ [4, 5, 6]
        [(1, 2, 3, 4), (5, 6, 7, 8)]).cmds).length
      = List.length ([] : List RectCmd) + min (List.length [4, 5, 6])
          (List.length [((1 : ℚ), (2 : ℚ), (3 : ℚ), (4 : ℚ)), (5, 6, 7, 8)]) :=
  draw_groundtruth_spec ⟨(0, 0, 0), 3, []⟩ [4, 5, 6] _

/-- One interaction with the online camera device, as issued by the online
branch of `Visualization._update_fun`. -/
inductive CamEvent where
  | openDevice : ℕ → CamEvent
  | setProp : ℕ → ℕ → CamEvent
  | read : CamEvent
  | release : CamEvent
deriving DecidableEq

/-- Embedding of the online branch of `Visualization._update_fun`:
`cv2.VideoCapture(0)`, `cap.set(3, 1280)`, `cap.set(4, 800)`,
`ret, frame = cap.read()`, `cap.release()`, then return `False` on a failed
read and otherwise invoke the callback once and return `True`. The device
read outcome is the parameter; the result records the device events in
issue order, the return value, and the frames passed to the callback. -/
def Visualization.updateOnline (readResult : Option ℕ) :
    List CamEvent × Bool × List ℕ :=
  let ev := [CamEvent.openDevice 0]
  let ev := ev ++ [CamEvent.setProp 3 1280]
  let ev := ev ++ [CamEvent.setProp 4 800]
  let ev := ev ++ [CamEvent.read]
  let ev := ev ++ [CamEvent.release]
  match readResult with
  | none => (ev, false, [])
  | some f => (ev, true, [f])

/-- C8: every online update opens a fresh device handle, requests the fixed
capture resolution 1280×800, reads exactly one frame and releases the handle
immediately — the release event is issued before the success test, hence on
the success and failure paths alike; the update reports `false` on a failed
read and otherwise passes the frame to the callback exactly once and reports
`true`. -/
theorem online_update_spec (r : Option ℕ) :
    Visualization.updateOnline r
      = ([CamEvent.openDevice 0, CamEvent.setProp 3 1280,
          CamEvent.setProp 4 800, CamEvent.read, CamEvent.release],
         r.isSome, r.toList) := by
  cases r <;> rfl

/-- Witness for C8 at a failed read and at a successful read of frame 42. -/
theorem online_update_spec_witness :
    Visualization.updateOnline none
      = ([CamEvent.openDevice 0, CamEvent.setProp 3 1280,
          CamEvent.setProp 4 800, CamEvent.read, CamEvent.release],
         Option.isSome (none : Option ℕ), Option.toList (none : Option ℕ)) :=
  online_update_spec none
